import Mathlib

/-!
Shallow embedding of the `harmony-one/sd-balancer` scheduler core
(`src/app.service.ts`, `src/helpers.ts`, and the unnamed legacy copy of
`getOperationsWeight`).  TypeScript values are modelled as follows: JS
strings become `String`, optional fields become `Option`, arrays become
`List`, `Date.now()` timestamps become `Nat` milliseconds, and the two
in-memory registries (`servers`, `operations`) become an `AppState`
record that every method threads explicitly.  JS truthiness of a
possibly-undefined string (`!operation.lora`, `!!s.trainAPI`,
`newServer.id || op.serverId`) is modelled by `truthyOpt` / `truthyStr`
(undefined and the empty string are falsy).
-/

/-- Enum `OPERATION_STATUS` from `app.service.ts`. -/
inductive OPERATION_STATUS where
  | WAITING
  | IN_PROGRESS
  | SUCCESS
  | ERROR
  | CANCELED_BY_CLIENT
  | CANCELED_BY_BALANCER
deriving DecidableEq, Repr

/-- Enum `OPERATION_TYPE` from `app.service.ts`. -/
inductive OPERATION_TYPE where
  | TEXT_TO_IMAGE
  | IMAGE_TO_IMAGE
  | TEXT_TO_IMAGES
  | TRAIN
deriving DecidableEq, Repr

/-- Record `MAX_EXECUTION_TIME` from `app.service.ts` (seconds). -/
def MAX_EXECUTION_TIME : OPERATION_TYPE → Nat
  | .TEXT_TO_IMAGE => 120
  | .IMAGE_TO_IMAGE => 120
  | .TEXT_TO_IMAGES => 120
  | .TRAIN => 1200

/-- Enum `SERVER_STATUS` from `app.service.ts`. -/
inductive SERVER_STATUS where
  | ONLINE
  | OFFLINE
deriving DecidableEq, Repr

/-- Interface `IOperation` from `app.service.ts` (including the inherited
`IOperationReq` requirement fields).  `startTime`/`endTime` are optional
millisecond timestamps; they are absent (`none`) until assigned. -/
structure IOperation where
  id : String
  type : OPERATION_TYPE
  model : Option String
  lora : Option String
  controlnet : Option String
  status : OPERATION_STATUS
  serverId : String
  startTime : Option Nat
  endTime : Option Nat
deriving DecidableEq, Repr

/-- Interface `IOperationReq` from `app.service.ts`: the requirement part of a
submission. -/
structure IOperationReq where
  type : OPERATION_TYPE
  model : Option String
  lora : Option String
  controlnet : Option String
deriving DecidableEq, Repr

/-- The requirement fields of a stored operation (used where the source
passes a full `IOperation` to `selectOptimalServer`). -/
def IOperation.req (op : IOperation) : IOperationReq :=
  { type := op.type, model := op.model, lora := op.lora, controlnet := op.controlnet }

/-- Interface `IServerReq` from `app.service.ts`: the JSON body of a
`/system_stats` probe response.  The capability lists are `Option`
because the source defaults them with `res.data.models || []` etc.;
`trainAPI` is `Option` because its absence encodes "cannot train". -/
structure IServerReq where
  models : Option (List String)
  loras : Option (List String)
  controlnets : Option (List String)
  comfyAPI : String
  trainAPI : Option String
deriving DecidableEq, Repr

/-- Interface `IServer` from `app.service.ts`: a registry entry. -/
structure IServer where
  id : String
  url : String
  models : List String
  loras : List String
  controlnets : List String
  comfyAPI : String
  trainAPI : Option String
  status : SERVER_STATUS
deriving DecidableEq, Repr

/-- The two in-memory registries of `AppService`. -/
structure AppState where
  servers : List IServer
  operations : List IOperation
deriving DecidableEq, Repr

/-- JS truthiness of a possibly-undefined string: `undefined` and `""`
are falsy, every other string is truthy. -/
def truthyOpt : Option String → Bool
  | none => false
  | some s => !(s == "")

/-- JS truthiness of a (defined) string: `""` is falsy. -/
def truthyStr (s : String) : Bool := !(s == "")

/-- The test `[OPERATION_STATUS.WAITING, OPERATION_STATUS.IN_PROGRESS].includes(op.status)`
as it appears in `helpers.ts` and `app.service.ts`. -/
def isActive (op : IOperation) : Bool :=
  [OPERATION_STATUS.WAITING, OPERATION_STATUS.IN_PROGRESS].contains op.status

/-- Function `getOperationsWeight` from `src/helpers.ts`: the switch runs over
only the `WAITING`/`IN_PROGRESS` operations, and a flat 10 is added when
at least one active operation is a `TRAIN`. -/
def getOperationsWeight (operations : List IOperation) : Nat :=
  let weight := (operations.filter isActive).foldl
    (fun weight op =>
      match op.type with
      | .TEXT_TO_IMAGE => weight + 1
      | .TEXT_TO_IMAGES => weight + 4
      | .IMAGE_TO_IMAGE => weight + 2
      | .TRAIN => weight + 0) 0
  let hasTrains :=
    (operations.filter (fun op => isActive op && op.type == .TRAIN)).length != 0
  if hasTrains then weight + 10 else weight

/-- Function `getOperationsWeight` from the unnamed legacy source file
(`src/unnamed/part_000`): same switch, but run over *all* operations
regardless of status. -/
def getOperationsWeightAll (operations : List IOperation) : Nat :=
  let weight := operations.foldl
    (fun weight op =>
      match op.type with
      | .TEXT_TO_IMAGE => weight + 1
      | .TEXT_TO_IMAGES => weight + 4
      | .IMAGE_TO_IMAGE => weight + 2
      | .TRAIN => weight + 0) 0
  let hasTrains := (operations.filter (fun op => op.type == .TRAIN)).length != 0
  if hasTrains then weight + 10 else weight

/-- The per-type weight table stated by the spec's cost model. -/
def typeWeight : OPERATION_TYPE → Nat
  | .TEXT_TO_IMAGE => 1
  | .IMAGE_TO_IMAGE => 2
  | .TEXT_TO_IMAGES => 4
  | .TRAIN => 0

section WeightLemmas

lemma foldl_typeWeight (l : List IOperation) (n : Nat) :
    l.foldl
      (fun weight op =>
        match op.type with
        | .TEXT_TO_IMAGE => weight + 1
        | .TEXT_TO_IMAGES => weight + 4
        | .IMAGE_TO_IMAGE => weight + 2
        | .TRAIN => weight + 0) n = n + (l.map (fun op => typeWeight op.type)).sum := by
  induction l generalizing n with
  | nil => simp
  | cons op l ih =>
    simp only [List.foldl_cons, List.map_cons, List.sum_cons, ih]
    cases h : op.type <;> simp [typeWeight, h] <;> ring

lemma filter_and_length_ne_zero (p q : IOperation → Bool) (l : List IOperation) :
    ((l.filter (fun op => p op && q op)).length != 0) = (l.filter p).any q := by
  induction l with
  | nil => simp
  | cons op l ih =>
    by_cases hp : p op = true <;> by_cases hq : q op = true <;>
      simp [List.filter_cons, hp, hq, ih]

end WeightLemmas

/-- C3: the `helpers.ts` weight of a list of operations is the sum of
the per-type weights (1/2/4/0) over exactly the `WAITING`/`IN_PROGRESS`
operations, plus a flat 10 once if some active operation is a `TRAIN`;
terminal operations contribute nothing. -/
theorem getOperationsWeight_spec (operations : List IOperation) :
    getOperationsWeight operations =
      ((operations.filter isActive).map (fun op => typeWeight op.type)).sum +
        (if (operations.filter isActive).any (fun op => op.type == .TRAIN) then 10 else 0) := by
  unfold getOperationsWeight
  rw [foldl_typeWeight, filter_and_length_ne_zero]
  by_cases h : (operations.filter isActive).any (fun op => op.type == .TRAIN) = true <;>
    simp [h]

/-- C10 (counterexample): the two `getOperationsWeight` implementations
disagree on a list holding a single terminal (`SUCCESS`)
`TEXT_TO_IMAGE` operation: `helpers.ts` reports 0, the legacy copy in
`src/unnamed/part_000` reports 1. -/
theorem getOperationsWeight_ne_all :
    ¬ (getOperationsWeight
        [{ id := "p", type := .TEXT_TO_IMAGE, model := some "m", lora := none,
           controlnet := none, status := .SUCCESS, serverId := "a",
           startTime := none, endTime := none }] =
      getOperationsWeightAll
        [{ id := "p", type := .TEXT_TO_IMAGE, model := some "m", lora := none,
           controlnet := none, status := .SUCCESS, serverId := "a",
           startTime := none, endTime := none }]) := by decide

/-- C10 (amended): the `helpers.ts` implementation of
`getOperationsWeight` agrees with the legacy `src/unnamed/part_000`
implementation applied to the `WAITING`/`IN_PROGRESS` sublist; hence the
two agree on every list that contains no terminal operation, and only
such lists. -/
theorem getOperationsWeight_eq_all_filter (operations : List IOperation) :
    getOperationsWeight operations = getOperationsWeightAll (operations.filter isActive) := by
  unfold getOperationsWeight getOperationsWeightAll
  have hfilter :
      (operations.filter isActive).filter (fun op => op.type == OPERATION_TYPE.TRAIN) =
        operations.filter (fun op => isActive op && op.type == OPERATION_TYPE.TRAIN) := by
    induction operations with
    | nil => rfl
    | cons op l ih =>
      by_cases ha : isActive op = true <;>
        by_cases ht : (op.type == OPERATION_TYPE.TRAIN) = true <;>
          simp [List.filter_cons, ha, ht, ih]
  rw [hfilter]

/-- The `!operation.lora` style guard plus `s.loras.includes(operation.lora)`:
JS `Array.includes` on a possibly-undefined string. An undefined needle is
never found in a string array. -/
def optIncludes (xs : List String) : Option String → Bool
  | none => false
  | some x => xs.contains x

/-- The filter predicate of `selectOptimalServer` in `app.service.ts`:
`s.models.includes(operation.model) && (!operation.lora ||
s.loras.includes(operation.lora)) && (!operation.controlnet ||
s.controlnets.includes(operation.controlnet)) && (operation.type !==
TRAIN || !!s.trainAPI) && s.status === ONLINE`. -/
def serverEligible (operation : IOperationReq) (s : IServer) : Bool :=
  optIncludes s.models operation.model &&
  (!truthyOpt operation.lora || optIncludes s.loras operation.lora) &&
  (!truthyOpt operation.controlnet || optIncludes s.controlnets operation.controlnet) &&
  (!(operation.type == .TRAIN) || truthyOpt s.trainAPI) &&
  s.status == .ONLINE

/-- The weight `selectOptimalServer` computes per candidate server:
`getOperationsWeight(this.operations.filter(op => op.serverId === s.id))`. -/
def serverWeight (st : AppState) (s : IServer) : Nat :=
  getOperationsWeight (st.operations.filter (fun op => op.serverId == s.id))

/-- Function `selectOptimalServer` from `app.service.ts`.  `Math.min(...weights)`
of an empty array is `Infinity`, whose `indexOf` is `-1`, and
`servers[-1]` is `undefined`: modelled by the `none` branch of
`List.min?`.  On a non-empty array `Math.min` is the minimum and
`indexOf` finds its first occurrence. -/
def selectOptimalServer (st : AppState) (operation : IOperationReq) : Option IServer :=
  let servers := st.servers.filter (fun s => serverEligible operation s)
  let weights := servers.map (fun s => serverWeight st s)
  match weights.min? with
  | none => none
  | some m => servers.get? (weights.indexOf m)

section SelectLemmas

lemma min?_spec {l : List Nat} {m : Nat} (h : l.min? = some m) :
    m ∈ l ∧ ∀ b ∈ l, m ≤ b := by
  rw [List.min?_eq_some_iff (fun a => le_refl a) (fun a b => min_choice a b)
    (fun a b c => le_min_iff)] at h
  exact h

lemma get?_lt_indexOf_ne {l : List Nat} {m x : Nat} :
    ∀ {j : Nat}, j < l.indexOf m → l.get? j = some x → x ≠ m := by
  induction l with
  | nil => intro j hj hx; simp at hx
  | cons a l ih =>
    intro j hj hx
    rw [List.indexOf_cons] at hj
    by_cases ha : a = m
    · simp [ha] at hj
    · have hbeq : (a == m) = false := by simp [ha]
      simp only [hbeq, cond_false] at hj
      cases j with
      | zero =>
        simp only [List.get?_cons_zero, Option.some.injEq] at hx
        subst hx
        exact ha
      | succ j => exact ih (by omega) hx

end SelectLemmas

/-- C2: whenever `selectOptimalServer` returns a server, that server is
a registry member that is `ONLINE` and satisfies every capability
predicate (`model` in `models`; `lora`, when a truthy one is specified,
in `loras`; `controlnet` likewise; truthy `trainAPI` for `TRAIN`
requirements); its active weight is minimal among all eligible servers,
and every eligible server occurring earlier in registry order has a
strictly larger weight (the first eligible server wins ties). -/
theorem selectOptimalServer_sound (st : AppState) (req : IOperationReq) (s : IServer)
    (h : selectOptimalServer st req = some s) :
    s ∈ st.servers ∧ s.status = .ONLINE ∧
    optIncludes s.models req.model = true ∧
    (truthyOpt req.lora = true → optIncludes s.loras req.lora = true) ∧
    (truthyOpt req.controlnet = true → optIncludes s.controlnets req.controlnet = true) ∧
    (req.type = .TRAIN → truthyOpt s.trainAPI = true) ∧
    (∀ s' ∈ st.servers, serverEligible req s' = true →
      serverWeight st s ≤ serverWeight st s') ∧
    ∃ i, (st.servers.filter (fun x => serverEligible req x)).get? i = some s ∧
      ∀ j s', j < i → (st.servers.filter (fun x => serverEligible req x)).get? j = some s' →
        serverWeight st s < serverWeight st s' := by
  simp only [selectOptimalServer] at h
  set ss := st.servers.filter (fun x => serverEligible req x) with hss
  set ws := ss.map (fun x => serverWeight st x) with hws
  split at h
  · exact absurd h (by simp)
  · rename_i m hmin
    obtain ⟨hmem, hle⟩ := min?_spec hmin
    have hidx : ws.get? (ws.indexOf m) = some m := List.indexOf_get? hmem
    have hsmem : s ∈ ss := List.get?_mem h
    have hws_at : ws.get? (ws.indexOf m) = some (serverWeight st s) := by
      rw [hws, List.get?_map, h]
      rfl
    have hwsm : serverWeight st s = m := by
      rw [hws_at] at hidx
      exact Option.some.inj hidx
    have hself := List.mem_filter.mp hsmem
    have hel : serverEligible req s = true := hself.2
    simp only [serverEligible, Bool.and_eq_true, Bool.or_eq_true, Bool.not_eq_true',
      beq_iff_eq, beq_eq_false_iff_ne, ne_eq] at hel
    obtain ⟨⟨⟨⟨hmodel, hlora⟩, hcn⟩, htrain⟩, honline⟩ := hel
    refine ⟨hself.1, honline, hmodel, ?_, ?_, ?_, ?_, ?_⟩
    · intro hl
      rcases hlora with hlora | hlora
      · rw [hl] at hlora; exact absurd hlora (by simp)
      · exact hlora
    · intro hc
      rcases hcn with hcn | hcn
      · rw [hc] at hcn; exact absurd hcn (by simp)
      · exact hcn
    · intro ht
      rcases htrain with htrain | htrain
      · exact absurd ht htrain
      · exact htrain
    · intro s' hs' hel'
      have hmem' : serverWeight st s' ∈ ws := by
        rw [hws]
        exact List.mem_map_of_mem _ (List.mem_filter.mpr ⟨hs', hel'⟩)
      rw [hwsm]
      exact hle _ hmem'
    · refine ⟨ws.indexOf m, h, ?_⟩
      intro j s' hj hj'
      have hwj : ws.get? j = some (serverWeight st s') := by
        rw [hws, List.get?_map, hj']
        rfl
      have hne : serverWeight st s' ≠ m := get?_lt_indexOf_ne hj hwj
      have hge : m ≤ serverWeight st s' := hle _ (List.get?_mem hwj)
      rw [hwsm]
      omega

/-- A one-server registry used to instantiate theorems with hypotheses
on concrete inputs. -/
def serverW : IServer :=
  { id := "a", url := "ua", models := ["m"], loras := [], controlnets := [],
    comfyAPI := "c", trainAPI := none, status := .ONLINE }

/-- A concrete state holding `serverW` and no operations. -/
def stW : AppState := { servers := [serverW], operations := [] }

/-- A concrete `TEXT_TO_IMAGE` requirement for model `"m"`. -/
def reqW : IOperationReq :=
  { type := .TEXT_TO_IMAGE, model := some "m", lora := none, controlnet := none }

/-- C2 witness: `selectOptimalServer` on the concrete one-server state
returns `serverW`, and the soundness theorem instantiates there. -/
theorem selectOptimalServer_sound_witness :
    serverW ∈ stW.servers ∧ serverW.status = .ONLINE ∧
    optIncludes serverW.models reqW.model = true ∧
    (truthyOpt reqW.lora = true → optIncludes serverW.loras reqW.lora = true) ∧
    (truthyOpt reqW.controlnet = true → optIncludes serverW.controlnets reqW.controlnet = true) ∧
    (reqW.type = .TRAIN → truthyOpt serverW.trainAPI = true) ∧
    (∀ s' ∈ stW.servers, serverEligible reqW s' = true →
      serverWeight stW serverW ≤ serverWeight stW s') ∧
    ∃ i, (stW.servers.filter (fun x => serverEligible reqW x)).get? i = some serverW ∧
      ∀ j s', j < i → (stW.servers.filter (fun x => serverEligible reqW x)).get? j = some s' →
        serverWeight stW serverW < serverWeight stW s' :=
  selectOptimalServer_sound stW reqW serverW (by decide)

/-- In-place mutation of the first list element satisfying `p` (the JS
pattern `const x = list.find(p); if (x) mutate(x)`), leaving the list
unchanged when no element matches. -/
def updateFirst (p : α → Bool) (f : α → α) : List α → List α
  | [] => []
  | x :: xs => if p x then f x :: xs else x :: updateFirst p f xs

/-- Function `completeOperation` from `app.service.ts`: look the operation up by
id and, if found, overwrite its status with the given terminal status.
Nothing else is touched (in particular `endTime` is never assigned). -/
def completeOperation (st : AppState) (id : String) (status : OPERATION_STATUS) : AppState :=
  { st with
    operations :=
      updateFirst (fun op => op.id == id) (fun op => { op with status := status })
        st.operations }

/-- One iteration of the `servers.forEach` body of
`startOperationsByType`: when the server has no `IN_PROGRESS` operation,
promote its first `WAITING` operation, stamping `startTime`. -/
def startOnServer (now : Nat) (serverId : String) (ops : List IOperation) : List IOperation :=
  if (ops.filter (fun op => op.status == .IN_PROGRESS && op.serverId == serverId)).length == 0 then
    updateFirst (fun op => op.status == .WAITING && op.serverId == serverId)
      (fun op => { op with startTime := some now, status := .IN_PROGRESS }) ops
  else ops

/-- Function `startOperationsByType` from `app.service.ts`.  The `types` argument
is declared by the source but never read: the guard and the `find` only
inspect `status` and `serverId`. -/
def startOperationsByType (types : List OPERATION_TYPE) (now : Nat) (st : AppState) : AppState :=
  { st with
    operations := st.servers.foldl (fun ops server => startOnServer now server.id ops) st.operations }

/-- The timeout test of `operationsLoop`:
`((Date.now() - op.startTime) / 1000) > MAX_EXECUTION_TIME[op.type]`,
with JS real-number division.  An `undefined` `startTime` makes the
left side `NaN`, and `NaN > x` is `false`. -/
def isTimedOut (now : Nat) (op : IOperation) : Bool :=
  match op.startTime with
  | none => false
  | some t => decide ((((now : ℚ) - (t : ℚ)) / 1000) > (MAX_EXECUTION_TIME op.type : ℚ))

/-- The timeout-enforcement pass of `operationsLoop`: snapshot the
`IN_PROGRESS` operations, then force-terminate each expired one via
`completeOperation(op.id, CANCELED_BY_BALANCER)`. -/
def timeoutPass (now : Nat) (st : AppState) : AppState :=
  (st.operations.filter (fun op => op.status == .IN_PROGRESS)).foldl
    (fun acc op =>
      if isTimedOut now op then completeOperation acc op.id .CANCELED_BY_BALANCER else acc)
    st

/-- One body execution of `operationsLoop` from `app.service.ts`:
timeout enforcement, then the non-training admission pass, then the
training admission pass. -/
def operationsLoopTick (now : Nat) (st : AppState) : AppState :=
  startOperationsByType [.TRAIN] now
    (startOperationsByType [.IMAGE_TO_IMAGE, .TEXT_TO_IMAGE, .TEXT_TO_IMAGES] now
      (timeoutPass now st))

section UpdateFirstLemmas

variable {α : Type}

lemma updateFirst_id (p : α → Bool) (f : α → α) {l : List α}
    (h : ∀ x ∈ l, p x = false) : updateFirst p f l = l := by
  induction l with
  | nil => rfl
  | cons x xs ih =>
    rw [updateFirst, if_neg (by simp [h x (List.mem_cons_self x xs)]),
      ih fun y hy => h y (List.mem_cons_of_mem x hy)]

lemma updateFirst_updateFirst (p : α → Bool) (f g : α → α)
    (hp : ∀ x, p (f x) = p x) (l : List α) :
    updateFirst p g (updateFirst p f l) = updateFirst p (fun x => g (f x)) l := by
  induction l with
  | nil => rfl
  | cons x xs ih =>
    by_cases hx : p x = true
    · rw [updateFirst, if_pos hx, updateFirst, if_pos ((hp x).trans hx),
        updateFirst, if_pos hx]
    · rw [updateFirst, if_neg hx, updateFirst, if_neg hx, updateFirst, if_neg hx, ih]

lemma updateFirst_get?_of_neg (p : α → Bool) (f : α → α) :
    ∀ {l : List α} {i : Nat} {a : α},
      l.get? i = some a → p a = false → (updateFirst p f l).get? i = some a := by
  intro l
  induction l with
  | nil => intro i a h _; simp at h
  | cons x xs ih =>
    intro i a h hpa
    cases i with
    | zero =>
      simp only [List.get?_cons_zero, Option.some.injEq] at h
      subst h
      rw [updateFirst, if_neg (by simp [hpa])]
      rfl
    | succ i =>
      simp only [List.get?_cons_succ] at h
      by_cases hx : p x = true
      · rw [updateFirst, if_pos hx]
        exact h
      · rw [updateFirst, if_neg hx]
        exact ih h hpa

lemma updateFirst_get?_cases (p : α → Bool) (f : α → α) :
    ∀ {l : List α} {i : Nat} {a : α},
      l.get? i = some a →
      (updateFirst p f l).get? i = some a ∨
        (p a = true ∧ (updateFirst p f l).get? i = some (f a)) := by
  intro l
  induction l with
  | nil => intro i a h; simp at h
  | cons x xs ih =>
    intro i a h
    cases i with
    | zero =>
      simp only [List.get?_cons_zero, Option.some.injEq] at h
      subst h
      by_cases hx : p x = true
      · exact Or.inr ⟨hx, by rw [updateFirst, if_pos hx]; rfl⟩
      · exact Or.inl (by rw [updateFirst, if_neg hx]; rfl)
    | succ i =>
      simp only [List.get?_cons_succ] at h
      by_cases hx : p x = true
      · refine Or.inl ?_
        rw [updateFirst, if_pos hx]
        exact h
      · rcases ih h with h' | ⟨hpa, h'⟩
        · refine Or.inl ?_
          rw [updateFirst, if_neg hx]
          exact h'
        · refine Or.inr ⟨hpa, ?_⟩
          rw [updateFirst, if_neg hx]
          exact h'

lemma updateFirst_key_get? (key : α → String) (k : String) (g : α → α) :
    ∀ {l : List α} {i : Nat} {a : α},
      (l.map key).Nodup → l.get? i = some a →
      (updateFirst (fun x => key x == k) g l).get? i =
        some (if key a == k then g a else a) := by
  intro l
  induction l with
  | nil => intro i a _ h; simp at h
  | cons x xs ih =>
    intro i a hnd h
    rw [List.map_cons, List.nodup_cons] at hnd
    cases i with
    | zero =>
      simp only [List.get?_cons_zero, Option.some.injEq] at h
      subst h
      by_cases hx : (key x == k) = true
      · rw [updateFirst, if_pos hx, if_pos hx]
        rfl
      · rw [updateFirst, if_neg hx, if_neg hx]
        rfl
    | succ i =>
      simp only [List.get?_cons_succ] at h
      by_cases hx : (key x == k) = true
      · have hmem : a ∈ xs := List.get?_mem h
        have hka : (key a == k) = false := by
          rw [beq_eq_false_iff_ne]
          intro hak
          apply hnd.1
          rw [beq_iff_eq.mp hx, ← hak]
          exact List.mem_map_of_mem key hmem
        rw [updateFirst, if_pos hx, if_neg (by simp [hka])]
        exact h
      · rw [updateFirst, if_neg hx]
        exact ih hnd.2 h

end UpdateFirstLemmas

/-- A `WAITING` `TEXT_TO_IMAGE` operation assigned to server `"a"`. -/
def opC4 : IOperation :=
  { id := "p", type := .TEXT_TO_IMAGE, model := some "m", lora := none,
    controlnet := none, status := .WAITING, serverId := "a",
    startTime := none, endTime := none }

/-- A state holding `serverW` and the single operation `opC4`. -/
def stC4 : AppState := { servers := [serverW], operations := [opC4] }

/-- C4 (counterexample): calling `completeOperation` a second time on
the same id with a different terminal status mutates the record: the
status set by the first call (`SUCCESS`) is overwritten by the second
(`ERROR`), rather than being preserved. -/
theorem completeOperation_overwrites :
    ((completeOperation stC4 "p" .SUCCESS).operations.map (fun op => op.status) =
      [.SUCCESS]) ∧
    ((completeOperation (completeOperation stC4 "p" .SUCCESS) "p" .ERROR).operations.map
        (fun op => op.status) = [.ERROR]) := by decide

/-- C4 (amended): `completeOperation` is last-write-wins, not
first-write-wins: a repeated call on the same id collapses to the second
call alone, and calling it on an id absent from the ledger is a no-op. -/
theorem completeOperation_spec (st : AppState) (id : String)
    (s1 s2 : OPERATION_STATUS) :
    completeOperation (completeOperation st id s1) id s2 = completeOperation st id s2 ∧
    (st.operations.find? (fun op => op.id == id) = none →
      completeOperation st id s1 = st) := by
  constructor
  · simp only [completeOperation]
    rw [updateFirst_updateFirst (fun op => op.id == id)
      (fun op => { op with status := s1 }) (fun op => { op with status := s2 })
      (fun x => rfl) st.operations]
  · intro hnone
    rw [List.find?_eq_none] at hnone
    simp only [completeOperation]
    rw [updateFirst_id (fun op => op.id == id)
      (fun op : IOperation => { op with status := s1 })
      fun x hx => by simpa using hnone x hx]

/-- C4 witness: on the concrete empty-ledger state the no-op part of the
amended theorem instantiates at id `"z"`. -/
theorem completeOperation_spec_witness :
    completeOperation stW "z" .SUCCESS = stW :=
  (completeOperation_spec stW "z" .SUCCESS .ERROR).2 (by decide)

section StartLemmas

lemma startOnServer_get?_of_nonwaiting (now : Nat) (sid : String)
    {ops : List IOperation} {i : Nat} {a : IOperation} (h : ops.get? i = some a)
    (ha : (a.status == OPERATION_STATUS.WAITING) = false) :
    (startOnServer now sid ops).get? i = some a := by
  unfold startOnServer
  split
  · exact updateFirst_get?_of_neg _ _ h (by simp [ha])
  · exact h

lemma startOnServer_get?_cases (now : Nat) (sid : String)
    {ops : List IOperation} {i : Nat} {a : IOperation} (h : ops.get? i = some a) :
    (startOnServer now sid ops).get? i = some a ∨
      (a.status = .WAITING ∧
        (startOnServer now sid ops).get? i =
          some { a with startTime := some now, status := .IN_PROGRESS }) := by
  unfold startOnServer
  split
  · rcases updateFirst_get?_cases (fun op => op.status == .WAITING && op.serverId == sid)
      (fun op => { op with startTime := some now, status := .IN_PROGRESS }) h with
      h' | ⟨hpa, h'⟩
    · exact Or.inl h'
    · rw [Bool.and_eq_true] at hpa
      exact Or.inr ⟨beq_iff_eq.mp hpa.1, h'⟩
  · exact Or.inl h

lemma startFold_get?_of_nonwaiting (now : Nat) (servers : List IServer) :
    ∀ {ops : List IOperation} {i : Nat} {a : IOperation},
      ops.get? i = some a → (a.status == OPERATION_STATUS.WAITING) = false →
      (servers.foldl (fun ops server => startOnServer now server.id ops) ops).get? i =
        some a := by
  induction servers with
  | nil => intro ops i a h _; exact h
  | cons s ss ih =>
    intro ops i a h ha
    exact ih (startOnServer_get?_of_nonwaiting now s.id h ha) ha

lemma startFold_get?_cases (now : Nat) (servers : List IServer) :
    ∀ {ops : List IOperation} {i : Nat} {a : IOperation}, ops.get? i = some a →
      (servers.foldl (fun ops server => startOnServer now server.id ops) ops).get? i =
          some a ∨
        (a.status = .WAITING ∧
          (servers.foldl (fun ops server => startOnServer now server.id ops) ops).get? i =
            some { a with startTime := some now, status := .IN_PROGRESS }) := by
  induction servers with
  | nil => intro ops i a h; exact Or.inl h
  | cons s ss ih =>
    intro ops i a h
    rcases startOnServer_get?_cases now s.id h with h1 | ⟨hw, h1⟩
    · exact ih h1
    · exact Or.inr ⟨hw, startFold_get?_of_nonwaiting now ss h1 rfl⟩

lemma updateFirst_get?_map_eq {α β : Type} (p : α → Bool) (f : α → α) (proj : α → β)
    (hproj : ∀ x, proj (f x) = proj x) :
    ∀ (l : List α) (i : Nat),
      ((updateFirst p f l).get? i).map proj = (l.get? i).map proj := by
  intro l
  induction l with
  | nil => intro i; rfl
  | cons x xs ih =>
    intro i
    by_cases hx : p x = true
    · rw [updateFirst, if_pos hx]
      cases i with
      | zero => simp [hproj x]
      | succ i => rfl
    · rw [updateFirst, if_neg hx]
      cases i with
      | zero => rfl
      | succ i => exact ih i

end StartLemmas

/-- An `IN_PROGRESS` operation with a stamped `startTime` and no
`endTime`, assigned to server `"a"`. -/
def opC9 : IOperation :=
  { id := "p", type := .TEXT_TO_IMAGE, model := some "m", lora := none,
    controlnet := none, status := .IN_PROGRESS, serverId := "a",
    startTime := some 5, endTime := none }

/-- A state holding `serverW` and the single running operation `opC9`. -/
def stC9 : AppState := { servers := [serverW], operations := [opC9] }

/-- C9 (counterexample): completing a running operation moves it to the
terminal status `SUCCESS` but leaves `endTime` unset — no code path in
the service ever assigns `endTime`. -/
theorem completeOperation_no_endTime :
    (stC9.operations.map (fun op => (op.status, op.endTime)) =
      [(.IN_PROGRESS, none)]) ∧
    ((completeOperation stC9 "p" .SUCCESS).operations.map
        (fun op => (op.status, op.endTime)) = [(.SUCCESS, none)]) := by decide

/-- C9 (amended): `startTime` is stamped with the current time exactly
when the admission pass promotes an operation into `IN_PROGRESS` (any
other operation is returned unchanged), while `completeOperation` — the
only path into a terminal state — never touches `startTime` or
`endTime`, so `endTime` is never set. -/
theorem lifecycle_timestamps :
    (∀ (types : List OPERATION_TYPE) (now : Nat) (st : AppState) (i : Nat)
        (op op' : IOperation),
      st.operations.get? i = some op →
      (startOperationsByType types now st).operations.get? i = some op' →
      op' = op ∨
        (op.status = .WAITING ∧
          op' = { op with startTime := some now, status := .IN_PROGRESS })) ∧
    (∀ (st : AppState) (id : String) (s : OPERATION_STATUS) (i : Nat),
      ((completeOperation st id s).operations.get? i).map
          (fun o => (o.startTime, o.endTime)) =
        (st.operations.get? i).map (fun o => (o.startTime, o.endTime))) := by
  constructor
  · intro types now st i op op' h h'
    rcases startFold_get?_cases now st.servers h with h1 | ⟨hw, h1⟩
    · rw [startOperationsByType] at h'
      rw [h1] at h'
      exact Or.inl (Option.some.inj h').symm
    · rw [startOperationsByType] at h'
      rw [h1] at h'
      exact Or.inr ⟨hw, (Option.some.inj h').symm⟩
  · intro st id s i
    simp only [completeOperation]
    exact updateFirst_get?_map_eq (fun op => op.id == id)
      (fun op : IOperation => { op with status := s })
      (fun o => (o.startTime, o.endTime)) (fun x => rfl) st.operations i

/-- The promoted form of `opC4` after an admission pass at time 7. -/
def opC4p : IOperation := { opC4 with startTime := some 7, status := .IN_PROGRESS }

/-- C9 witness: the promotion half of the amended theorem instantiates
on the concrete state `stC4`, whose single `WAITING` operation is
promoted at time 7. -/
theorem lifecycle_timestamps_witness :
    opC4p = opC4 ∨
      (opC4.status = .WAITING ∧
        opC4p = { opC4 with startTime := some 7, status := .IN_PROGRESS }) :=
  lifecycle_timestamps.1 [] 7 stC4 0 opC4 opC4p (by decide) (by decide)

/-- The operation ids in a ledger are pairwise distinct (they are
uuidv4 values in the source). -/
abbrev idsNodup (ops : List IOperation) : Prop :=
  (ops.map (fun op => op.id)).Nodup

section TimeoutLemmas

lemma updateFirst_map_eq {α β : Type} (p : α → Bool) (f : α → α) (proj : α → β)
    (hproj : ∀ x, proj (f x) = proj x) :
    ∀ l : List α, (updateFirst p f l).map proj = l.map proj := by
  intro l
  induction l with
  | nil => rfl
  | cons x xs ih =>
    by_cases hx : p x = true
    · rw [updateFirst, if_pos hx, List.map_cons, List.map_cons, hproj x]
    · rw [updateFirst, if_neg hx, List.map_cons, List.map_cons, ih]

lemma completeOperation_idsNodup (st : AppState) (id : String) (s : OPERATION_STATUS)
    (hnd : idsNodup st.operations) : idsNodup (completeOperation st id s).operations := by
  unfold idsNodup completeOperation at *
  rwa [updateFirst_map_eq (fun op => op.id == id)
    (fun op : IOperation => { op with status := s }) (fun op => op.id) (fun x => rfl)]

lemma completeOperation_get? (st : AppState) (id : String) (s : OPERATION_STATUS)
    {i : Nat} {b : IOperation} (hnd : idsNodup st.operations)
    (h : st.operations.get? i = some b) :
    (completeOperation st id s).operations.get? i =
      some (if b.id == id then { b with status := s } else b) :=
  updateFirst_key_get? (fun op : IOperation => op.id) id
    (fun op : IOperation => { op with status := s }) hnd h

lemma timeoutFold_get? (now : Nat) :
    ∀ (L : List IOperation) (acc : AppState) (i : Nat) (b : IOperation),
      idsNodup acc.operations → acc.operations.get? i = some b →
      ((L.foldl
          (fun a op =>
            if isTimedOut now op then completeOperation a op.id .CANCELED_BY_BALANCER
            else a) acc).operations.get? i =
        some (if L.any (fun op => op.id == b.id && isTimedOut now op)
              then { b with status := .CANCELED_BY_BALANCER } else b)) := by
  intro L
  induction L with
  | nil => intro acc i b _ h; simpa using h
  | cons op L ih =>
    intro acc i b hnd h
    rw [List.foldl_cons, List.any_cons]
    by_cases ht : isTimedOut now op = true
    · rw [if_pos ht]
      by_cases hb : (b.id == op.id) = true
      · have hop : (op.id == b.id) = true := by
          rw [beq_iff_eq]
          exact (beq_iff_eq.mp hb).symm
        have h1 := completeOperation_get? acc op.id .CANCELED_BY_BALANCER hnd h
        rw [if_pos hb] at h1
        have h2 := ih (completeOperation acc op.id .CANCELED_BY_BALANCER) i
          { b with status := .CANCELED_BY_BALANCER }
          (completeOperation_idsNodup acc op.id .CANCELED_BY_BALANCER hnd) h1
        rw [hop, Bool.true_and, ht, Bool.true_or]
        rw [h2]
        split <;> rfl
      · simp only [Bool.not_eq_true] at hb
        have hop : (op.id == b.id) = false := by
          rw [beq_eq_false_iff_ne] at hb ⊢
          exact fun he => hb he.symm
        have h1 := completeOperation_get? acc op.id .CANCELED_BY_BALANCER hnd h
        rw [if_neg (by simp [hb])] at h1
        rw [hop, Bool.false_and, Bool.false_or]
        exact ih (completeOperation acc op.id .CANCELED_BY_BALANCER) i b
          (completeOperation_idsNodup acc op.id .CANCELED_BY_BALANCER hnd) h1
    · simp only [Bool.not_eq_true] at ht
      rw [ht, if_neg (by simp), Bool.and_false, Bool.false_or]
      exact ih acc i b hnd h

lemma nodup_key_inj {α : Type} (key : α → String) :
    ∀ {l : List α}, (l.map key).Nodup →
      ∀ {x y : α}, x ∈ l → y ∈ l → key x = key y → x = y := by
  intro l
  induction l with
  | nil => intro _ x y hx; simp at hx
  | cons a l ih =>
    intro hnd x y hx hy hkey
    rw [List.map_cons, List.nodup_cons] at hnd
    rcases List.mem_cons.mp hx with hx | hx <;> rcases List.mem_cons.mp hy with hy | hy
    · rw [hx, hy]
    · exact absurd (by rw [← hx, hkey]; exact List.mem_map_of_mem key hy) hnd.1
    · exact absurd (by rw [← hy, ← hkey]; exact List.mem_map_of_mem key hx) hnd.1
    · exact ih hnd.2 hx hy hkey

lemma any_beq_key {α : Type} (key : α → String) (q : α → Bool)
    {l L : List α} {b : α} (hnd : (l.map key).Nodup) (hsub : L.Sublist l)
    (hb : b ∈ L) :
    L.any (fun x => key x == key b && q x) = q b := by
  by_cases hq : q b = true
  · rw [hq]
    exact List.any_eq_true.mpr ⟨b, hb, by simp [hq]⟩
  · simp only [Bool.not_eq_true] at hq
    rw [hq]
    refine List.any_eq_false.mpr ?_
    intro x hx hcontra
    rw [Bool.and_eq_true] at hcontra
    have hxb : x = b :=
      nodup_key_inj key hnd (hsub.mem hx) (hsub.mem hb) (beq_iff_eq.mp hcontra.1)
    rw [hxb, hq] at hcontra
    exact absurd hcontra.2 (by simp)

lemma timeoutPass_get? (now : Nat) (st : AppState) {i : Nat} {op : IOperation}
    (hnd : idsNodup st.operations) (h : st.operations.get? i = some op)
    (hip : op.status = .IN_PROGRESS) :
    (timeoutPass now st).operations.get? i =
      some (if isTimedOut now op then { op with status := .CANCELED_BY_BALANCER }
            else op) := by
  have hmem : op ∈ st.operations.filter (fun op => op.status == .IN_PROGRESS) :=
    List.mem_filter.mpr ⟨List.get?_mem h, by simp [hip]⟩
  have hany :
      (st.operations.filter (fun op => op.status == .IN_PROGRESS)).any
          (fun x => x.id == op.id && isTimedOut now x) = isTimedOut now op :=
    any_beq_key (fun op => op.id) (fun x => isTimedOut now x) hnd
      (List.filter_sublist st.operations) hmem
  have hfold := timeoutFold_get? now
    (st.operations.filter (fun op => op.status == .IN_PROGRESS)) st i op hnd h
  rw [hany] at hfold
  exact hfold

end TimeoutLemmas

/-- C7: on a scheduling tick, an `IN_PROGRESS` operation whose elapsed
time strictly exceeds its type's maximum execution time is set to
`CANCELED_BY_BALANCER` at its ledger position, and an `IN_PROGRESS`
operation within its limit is returned entirely unchanged; the source's
real-division timeout test is equivalent to
`1000 * MAX_EXECUTION_TIME[type] < now - startTime` milliseconds
(120 s for the three image types, 1200 s for `TRAIN`). -/
theorem operationsLoop_timeout_spec (st : AppState) (now : Nat) (i : Nat)
    (op : IOperation) (hnd : idsNodup st.operations)
    (h : st.operations.get? i = some op) (hip : op.status = .IN_PROGRESS) :
    ((operationsLoopTick now st).operations.get? i =
      some (if isTimedOut now op then { op with status := .CANCELED_BY_BALANCER }
            else op)) ∧
    (∀ t, op.startTime = some t →
      (isTimedOut now op = true ↔ 1000 * MAX_EXECUTION_TIME op.type < now - t)) := by
  constructor
  · have h1 := timeoutPass_get? now st hnd h hip
    have hcs :
        ((if isTimedOut now op then
            ({ op with status := OPERATION_STATUS.CANCELED_BY_BALANCER } : IOperation)
          else op).status == OPERATION_STATUS.WAITING) = false := by
      by_cases hto : isTimedOut now op = true
      · rw [if_pos hto]
        rfl
      · simp only [Bool.not_eq_true] at hto
        rw [hto, if_neg (by simp)]
        simp [hip]
    have h2 := startFold_get?_of_nonwaiting now (timeoutPass now st).servers h1 hcs
    have h3 := startFold_get?_of_nonwaiting now (timeoutPass now st).servers h2 hcs
    exact h3
  · intro t ht
    simp only [isTimedOut, ht, decide_eq_true_eq, gt_iff_lt]
    rcases le_or_lt t now with h1 | h2
    · rw [lt_div_iff (by norm_num : (0:ℚ) < 1000), ← Nat.cast_sub h1]
      have hcast : ((MAX_EXECUTION_TIME op.type * 1000 : ℕ) : ℚ) =
          (MAX_EXECUTION_TIME op.type : ℚ) * 1000 := by push_cast; ring
      rw [← hcast, Nat.cast_lt]
      constructor <;> omega
    · have hneg : ((now : ℚ) - (t : ℚ)) / 1000 < 0 := by
        apply div_neg_of_neg_of_pos _ (by norm_num)
        rw [sub_neg]
        exact_mod_cast h2
      have hM : (0:ℚ) ≤ (MAX_EXECUTION_TIME op.type : ℚ) := Nat.cast_nonneg _
      constructor
      · intro hgt
        linarith
      · intro hlt
        omega

/-- C7 witness: on the concrete state `stC9` (one `IN_PROGRESS`
`TEXT_TO_IMAGE` operation started at 5 ms) a tick at 121006 ms
instantiates the timeout theorem. -/
theorem operationsLoop_timeout_spec_witness :
    (operationsLoopTick 121006 stC9).operations.get? 0 =
      some (if isTimedOut 121006 opC9
            then { opC9 with status := .CANCELED_BY_BALANCER } else opC9) :=
  (operationsLoop_timeout_spec stC9 121006 0 opC9 (by decide) (by decide)
    (by decide)).1

/-- One iteration of the failover `forEach` body in `checkServers`:
reassign the operation at ledger index `i` to a freshly selected server
(`op.serverId = newServer.id || op.serverId`).  `none` models the
`TypeError` raised by reading `newServer.id` when `selectOptimalServer`
returned `undefined`; the mutation is skipped in that case and the
exception propagates. -/
def transferAt (st : AppState) (i : Nat) : Option AppState :=
  match st.operations.get? i with
  | none => some st
  | some op =>
    match selectOptimalServer st op.req with
    | none => none
    | some newServer =>
      some { st with
        operations := st.operations.set i
          { op with
            serverId := if truthyStr newServer.id then newServer.id else op.serverId } }

/-- The failover `forEach` over the snapshot of affected ledger indices.
When an iteration raises (its operation has no eligible server) the
surrounding `try { ... } catch` in `checkServers` swallows the exception
and the remaining snapshot entries are never processed: mutations made
so far are kept, the rest of the loop is abandoned. -/
def transferGo (idxs : List Nat) (st : AppState) : AppState :=
  match idxs with
  | [] => st
  | i :: rest =>
    match transferAt st i with
    | none => st
    | some st' => transferGo rest st'

/-- The `// transfer operations to other servers` block of
`checkServers`: snapshot the indices of the operations assigned to the
dead server (`operations.filter(op => op.serverId === connectedServer.id)`
takes its snapshot before any mutation), then run the reassignment loop. -/
def transferOperations (st : AppState) (deadId : String) : AppState :=
  transferGo
    ((List.range st.operations.length).filter
      (fun i =>
        match st.operations.get? i with
        | some op => op.serverId == deadId
        | none => false))
    st

/-- Function `checkServers` from `app.service.ts`: for each configured URL, probe
it (`probe url = none` models a failed/unreachable `GET /system_stats`,
`some res` its parsed JSON body) and update the registry; a newly seen
healthy URL is appended as a fresh server whose id `mkId url` models
`uuidv4()`.  A probe failure for a known server flips it `OFFLINE` and
runs the failover transfer. -/
def checkServers (probe : String → Option IServerReq) (mkId : String → String)
    (urls : List String) (st : AppState) : AppState :=
  urls.foldl
    (fun st serverUrl =>
      match probe serverUrl, st.servers.find? (fun s => s.url == serverUrl) with
      | some _, some _ =>
        { st with
          servers := updateFirst (fun s => s.url == serverUrl)
            (fun s => { s with status := .ONLINE }) st.servers }
      | some res, none =>
        { st with
          servers := st.servers ++
            [{ id := mkId serverUrl, url := serverUrl,
               models := res.models.getD [], loras := res.loras.getD [],
               controlnets := res.controlnets.getD [], comfyAPI := res.comfyAPI,
               trainAPI := res.trainAPI, status := .ONLINE }] }
      | none, some connectedServer =>
        transferOperations
          { st with
            servers := updateFirst (fun s => s.url == serverUrl)
              (fun s => { s with status := .OFFLINE }) st.servers }
          connectedServer.id
      | none, none => st)
    st

/-- The operation record `addOperation` builds: status `WAITING`, no
timestamps, assigned to the chosen server (`newId` models `uuidv4()`). -/
def newOperationFor (newId : String) (operation : IOperationReq) (server : IServer) :
    IOperation :=
  { id := newId, type := operation.type, status := .WAITING, model := operation.model,
    lora := operation.lora, controlnet := operation.controlnet, serverId := server.id,
    startTime := none, endTime := none }

/-- Function `addOperation` from `app.service.ts`: select a server; when none is
found run one synchronous `checkServers` cycle and select once more;
when still none is found throw (modelled by `none` in the second
component) with the state as left by the retry; otherwise append the new
`WAITING` operation.  (The source then returns the operation through
`getFullOperationById`; the returned view is not modelled, only the
created record and state.) -/
def addOperation (probe : String → Option IServerReq) (mkId : String → String)
    (urls : List String) (newId : String) (st : AppState)
    (operation : IOperationReq) : AppState × Option IOperation :=
  match selectOptimalServer st operation with
  | some server =>
    ({ st with operations := st.operations ++ [newOperationFor newId operation server] },
      some (newOperationFor newId operation server))
  | none =>
    let st2 := checkServers probe mkId urls st
    match selectOptimalServer st2 operation with
    | some server =>
      ({ st2 with operations := st2.operations ++ [newOperationFor newId operation server] },
        some (newOperationFor newId operation server))
    | none => (st2, none)

/-- The empty startup state of `AppService` (both registries begin as
empty arrays). -/
def initState : AppState := { servers := [], operations := [] }

/-- A status is terminal when it is one of the four statuses accepted by
`completeOperation`'s TypeScript signature. -/
def isTerminalStatus (s : OPERATION_STATUS) : Prop :=
  s = .SUCCESS ∨ s = .ERROR ∨ s = .CANCELED_BY_CLIENT ∨ s = .CANCELED_BY_BALANCER

/-- The externally triggerable transitions of the service: a submission
(`addOperation`), a scheduling tick (`operationsLoop` body), a
health-check cycle (`checkServers`, with arbitrary probe outcomes), and
a client completion (`completeOperation` with a terminal status). -/
inductive Step : AppState → AppState → Prop where
  | submit (probe : String → Option IServerReq) (mkId : String → String)
      (urls : List String) (newId : String) (req : IOperationReq) (st : AppState) :
      Step st (addOperation probe mkId urls newId st req).1
  | tick (now : Nat) (st : AppState) : Step st (operationsLoopTick now st)
  | health (probe : String → Option IServerReq) (mkId : String → String)
      (urls : List String) (st : AppState) : Step st (checkServers probe mkId urls st)
  | complete (id : String) (s : OPERATION_STATUS) (hs : isTerminalStatus s)
      (st : AppState) : Step st (completeOperation st id s)

/-- States reachable from the empty startup state by `Step` transitions. -/
inductive Reachable : AppState → Prop where
  | init : Reachable initState
  | step {st st' : AppState} : Reachable st → Step st st' → Reachable st'

/-- The number of `IN_PROGRESS` operations assigned to server id `sid`. -/
def inProgCount (ops : List IOperation) (sid : String) : Nat :=
  (ops.filter (fun op => op.status == .IN_PROGRESS && op.serverId == sid)).length

/-- The admission-control invariant claimed by the spec: at most one
operation per server id is `IN_PROGRESS`. -/
def atMostOneInProgress (st : AppState) : Prop :=
  ∀ sid : String, inProgCount st.operations sid ≤ 1

/-- Every field of an operation except `serverId` (the only field the
failover loop may write). -/
def opShadow (op : IOperation) :
    String × OPERATION_TYPE × Option String × Option String × Option String ×
      OPERATION_STATUS × Option Nat × Option Nat :=
  (op.id, op.type, op.model, op.lora, op.controlnet, op.status, op.startTime, op.endTime)

section TransferLemmas

lemma set_get?_eq {α : Type} : ∀ (l : List α) (i : Nat) (a : α),
    l.get? i = some a → l.set i a = l := by
  intro l
  induction l with
  | nil => intro i a h; simp at h
  | cons x xs ih =>
    intro i a h
    cases i with
    | zero =>
      simp only [List.get?_cons_zero, Option.some.injEq] at h
      rw [List.set_cons_zero, h]
    | succ i =>
      simp only [List.get?_cons_succ] at h
      rw [List.set_cons_succ, ih i a h]

lemma transferAt_servers {st : AppState} {i : Nat} {st' : AppState}
    (h : transferAt st i = some st') : st'.servers = st.servers := by
  unfold transferAt at h
  split at h
  · cases h; rfl
  · split at h
    · cases h
    · cases h; rfl

lemma transferAt_shadow {st : AppState} {i : Nat} {st' : AppState}
    (h : transferAt st i = some st') :
    st'.operations.map opShadow = st.operations.map opShadow := by
  unfold transferAt at h
  split at h
  · cases h; rfl
  · rename_i op hop
    split at h
    · cases h
    · cases h
      simp only [List.map_set]
      apply set_get?_eq
      rw [List.get?_map, hop]
      rfl

lemma transferAt_get?_ne {st : AppState} {i : Nat} {st' : AppState}
    (h : transferAt st i = some st') {j : Nat} (hij : j ≠ i) :
    st'.operations.get? j = st.operations.get? j := by
  unfold transferAt at h
  split at h
  · cases h; rfl
  · split at h
    · cases h
    · cases h
      exact List.get?_set_ne _ _ (fun he => hij he.symm)

lemma transferGo_servers : ∀ (idxs : List Nat) (st : AppState),
    (transferGo idxs st).servers = st.servers := by
  intro idxs
  induction idxs with
  | nil => intro st; rfl
  | cons i rest ih =>
    intro st
    rw [transferGo]
    cases h : transferAt st i with
    | none => rfl
    | some st' => rw [ih st', transferAt_servers h]

lemma transferGo_shadow : ∀ (idxs : List Nat) (st : AppState),
    (transferGo idxs st).operations.map opShadow = st.operations.map opShadow := by
  intro idxs
  induction idxs with
  | nil => intro st; rfl
  | cons i rest ih =>
    intro st
    rw [transferGo]
    cases h : transferAt st i with
    | none => rfl
    | some st' => rw [ih st', transferAt_shadow h]

lemma transferGo_get?_of_notmem : ∀ (idxs : List Nat) (st : AppState) (j : Nat),
    j ∉ idxs → (transferGo idxs st).operations.get? j = st.operations.get? j := by
  intro idxs
  induction idxs with
  | nil => intro st j _; rfl
  | cons i rest ih =>
    intro st j hj
    rw [List.mem_cons, not_or] at hj
    rw [transferGo]
    cases h : transferAt st i with
    | none => rfl
    | some st' => rw [ih st' j hj.2, transferAt_get?_ne h hj.1]

lemma transferOperations_shadow (st : AppState) (deadId : String) :
    (transferOperations st deadId).operations.map opShadow =
      st.operations.map opShadow :=
  transferGo_shadow _ st

end TransferLemmas

/-- The two-server registry used by the concrete failover scenarios:
both servers are `ONLINE` and both offer model `"m"`. -/
def srvA : IServer :=
  { id := "a", url := "a", models := ["m"], loras := [], controlnets := [],
    comfyAPI := "c", trainAPI := none, status := .ONLINE }

/-- Second server of the failover scenarios (id and url `"b"`). -/
def srvB : IServer :=
  { id := "b", url := "b", models := ["m"], loras := [], controlnets := [],
    comfyAPI := "c", trainAPI := none, status := .ONLINE }

/-- A probe outcome under which server url `"a"` is unreachable and
every other url responds with capabilities for model `"m"`. -/
def probeDownA : String → Option IServerReq :=
  fun u =>
    if u == "a" then none
    else some { models := some ["m"], loras := some [], controlnets := some [],
                comfyAPI := "c", trainAPI := none }

/-- The identity id-minting function used by the concrete scenarios
(each url doubles as the created server's id). -/
def urlId : String → String := fun u => u

/-- A running operation assigned to server `"a"`. -/
def opC5 : IOperation :=
  { id := "p", type := .TEXT_TO_IMAGE, model := some "m", lora := none,
    controlnet := none, status := .IN_PROGRESS, serverId := "a",
    startTime := some 0, endTime := none }

/-- State for the C5 scenario: servers `"a"`/`"b"` online, one running
operation on `"a"`. -/
def stC5 : AppState := { servers := [srvA, srvB], operations := [opC5] }

/-- C5 (counterexample): a health-check cycle in which server `"a"`
fails its probe flips it `OFFLINE` and rewrites the `serverId` of its
`IN_PROGRESS` operation to `"b"` — the failover filter selects *all*
operations of the dead server, not only the `WAITING` ones. -/
theorem failover_moves_in_progress :
    (stC5.operations.map (fun op => (op.serverId, op.status)) =
      [("a", .IN_PROGRESS)]) ∧
    ((checkServers probeDownA urlId ["a", "b"] stC5).servers.map
        (fun s => (s.id, s.status)) = [("a", .OFFLINE), ("b", .ONLINE)]) ∧
    ((checkServers probeDownA urlId ["a", "b"] stC5).operations.map
        (fun op => (op.serverId, op.status)) = [("b", .IN_PROGRESS)]) := by decide

/-- C5 (amended): the failover transfer never touches the server
registry or any operation field other than `serverId`, and an operation
assigned to a server other than the dead one is returned completely
unchanged — but operations of the dead server have their `serverId`
rewritten regardless of status (`WAITING`, `IN_PROGRESS`, or terminal
alike). -/
theorem transferOperations_frame (st : AppState) (deadId : String) :
    (transferOperations st deadId).servers = st.servers ∧
    (transferOperations st deadId).operations.map opShadow =
      st.operations.map opShadow ∧
    ∀ i op, st.operations.get? i = some op → op.serverId ≠ deadId →
      (transferOperations st deadId).operations.get? i = some op := by
  refine ⟨transferGo_servers _ st, transferGo_shadow _ st, ?_⟩
  intro i op h hne
  unfold transferOperations
  rw [transferGo_get?_of_notmem _ st i ?_]
  · exact h
  · intro hmem
    have hpred := (List.mem_filter.mp hmem).2
    rw [h] at hpred
    exact hne (beq_iff_eq.mp hpred)

/-- C5 witness: on the concrete state `stC4` (whose only operation is
assigned to `"a"`), a transfer for the unrelated dead id `"x"` leaves
the operation at position 0 unchanged. -/
theorem transferOperations_frame_witness :
    (transferOperations stC4 "x").operations.get? 0 = some opC4 :=
  (transferOperations_frame stC4 "x").2.2 0 opC4 (by decide) (by decide)

/-- An operation of the C6 scenario requesting model `"zz"`, which no
server offers. -/
def op1C6 : IOperation :=
  { id := "p", type := .TEXT_TO_IMAGE, model := some "zz", lora := none,
    controlnet := none, status := .WAITING, serverId := "a",
    startTime := none, endTime := none }

/-- An operation of the C6 scenario requesting model `"m"`, offered by
server `"b"`. -/
def op2C6 : IOperation :=
  { id := "q", type := .TEXT_TO_IMAGE, model := some "m", lora := none,
    controlnet := none, status := .WAITING, serverId := "a",
    startTime := none, endTime := none }

/-- State for the C6 scenario before the health-check cycle. -/
def stC6 : AppState := { servers := [srvA, srvB], operations := [op1C6, op2C6] }

/-- The C6 state as it stands when the failover loop runs: server `"a"`
already flipped `OFFLINE`. -/
def stC6off : AppState :=
  { servers := [{ srvA with status := .OFFLINE }, srvB], operations := [op1C6, op2C6] }

/-- C6 (counterexample): during the health-check cycle that takes
`"a"` offline, the first affected operation (`"p"`, model `"zz"`) has no
eligible server; the resulting exception aborts the whole failover loop,
so the second affected operation (`"q"`) keeps `serverId = "a"` even
though server `"b"` is eligible for it. -/
theorem failover_abandons_remaining :
    (checkServers probeDownA urlId ["a", "b"] stC6 = stC6off) ∧
    (transferOperations stC6off "a" = stC6off) ∧
    (selectOptimalServer stC6off op1C6.req = none) ∧
    (selectOptimalServer stC6off op2C6.req = some srvB) ∧
    (op2C6.serverId = "a") := by decide

/-- C6 (amended): when the first operation assigned to the dead server
admits no eligible server, its `serverId` is indeed left unchanged, but
the thrown `TypeError` abandons the whole failover loop: the transfer
returns the state unchanged and no later affected operation is examined
or reassigned in that cycle. -/
theorem transferOperations_abort (st : AppState) (deadId : String) (i : Nat)
    (op : IOperation) (h : st.operations.get? i = some op)
    (hdead : op.serverId = deadId)
    (hsel : selectOptimalServer st op.req = none)
    (hfirst : ∀ j op', j < i → st.operations.get? j = some op' →
      op'.serverId ≠ deadId) :
    transferOperations st deadId = st := by
  unfold transferOperations
  have hlt : i < st.operations.length := by
    rcases List.get?_eq_some.mp h with ⟨hl, _⟩
    exact hl
  have hin : i ∈ (List.range st.operations.length).filter
      (fun i =>
        match st.operations.get? i with
        | some op => op.serverId == deadId
        | none => false) := by
    refine List.mem_filter.mpr ⟨List.mem_range.mpr hlt, ?_⟩
    rw [h]
    simp [hdead]
  cases hidx : (List.range st.operations.length).filter
      (fun i =>
        match st.operations.get? i with
        | some op => op.serverId == deadId
        | none => false) with
  | nil => rfl
  | cons x rest =>
    have hpair := (List.pairwise_lt_range st.operations.length).filter
      (fun i =>
        match st.operations.get? i with
        | some op => op.serverId == deadId
        | none => false)
    rw [hidx, List.pairwise_cons] at hpair
    have hxpred : x ∈ (List.range st.operations.length).filter
        (fun i =>
          match st.operations.get? i with
          | some op => op.serverId == deadId
          | none => false) := by
      rw [hidx]
      exact List.mem_cons_self x rest
    have hxi : x = i := by
      rw [hidx, List.mem_cons] at hin
      rcases hin with hin | hin
      · exact hin.symm
      · exfalso
        have hxlt : x < i := hpair.1 i hin
        have hp := (List.mem_filter.mp hxpred).2
        cases hx : st.operations.get? x with
        | none => rw [hx] at hp; simp at hp
        | some op' =>
          rw [hx] at hp
          exact hfirst x op' hxlt hx (beq_iff_eq.mp hp)
    subst hxi
    rw [transferGo]
    simp only [transferAt, h, hsel]

/-- C6 witness: the abort theorem instantiates on the concrete state
`stC6off` at index 0 (operation `"p"` with its unsatisfiable model). -/
theorem transferOperations_abort_witness :
    transferOperations stC6off "a" = stC6off :=
  transferOperations_abort stC6off "a" 0 op1C6 (by decide) (by decide) (by decide)
    (fun j op' hj _ => absurd hj (Nat.not_lt_zero j))

lemma checkServers_shadow (probe : String → Option IServerReq)
    (mkId : String → String) :
    ∀ (urls : List String) (st : AppState),
      (checkServers probe mkId urls st).operations.map opShadow =
        st.operations.map opShadow := by
  intro urls
  induction urls with
  | nil => intro st; rfl
  | cons url rest ih =>
    intro st
    show (checkServers probe mkId rest _).operations.map opShadow = _
    rw [ih]
    cases hp : probe url <;> cases hf : st.servers.find? (fun s => s.url == url) <;>
      simp only [hp, hf] <;> rw [transferOperations_shadow]

/-- A `WAITING` operation for model `"m"` assigned to server `"a"`,
present in the ledger before the C8 submission. -/
def opC8 : IOperation :=
  { id := "p", type := .TEXT_TO_IMAGE, model := some "m", lora := none,
    controlnet := none, status := .WAITING, serverId := "a",
    startTime := none, endTime := none }

/-- State for the C8 scenario: servers `"a"`/`"b"` online, `opC8`
queued on `"a"`. -/
def stC8 : AppState := { servers := [srvA, srvB], operations := [opC8] }

/-- The C8 submission requirement: model `"zz"`, which no server
offers. -/
def reqC8 : IOperationReq :=
  { type := .TEXT_TO_IMAGE, model := some "zz", lora := none, controlnet := none }

/-- C8 (counterexample): a submission for the unsatisfiable model
`"zz"` fails (no operation is created), but the ledger is *not*
unchanged on this error path: the synchronous health-check cycle run
between the two selections takes server `"a"` offline and its failover
rewrites the queued operation's `serverId` from `"a"` to `"b"`. -/
theorem addOperation_error_mutates_ledger :
    ((addOperation probeDownA urlId ["a", "b"] "q" stC8 reqC8).2 = none) ∧
    (stC8.operations.map (fun op => op.serverId) = ["a"]) ∧
    ((addOperation probeDownA urlId ["a", "b"] "q" stC8 reqC8).1.operations.map
        (fun op => op.serverId) = ["b"]) := by decide

/-- C8 (amended): `addOperation` retries selection exactly once after
one synchronous `checkServers` cycle; when both selections fail it
throws and creates no operation — no record is appended and no field of
any existing operation changes except `serverId`s rewritten by the
health-check cycle's failover; on success it appends exactly one new
`WAITING` operation, assigned to the server chosen by the successful
selection, to the ledger as it stands at that point. -/
theorem addOperation_spec (probe : String → Option IServerReq)
    (mkId : String → String) (urls : List String) (newId : String)
    (st : AppState) (req : IOperationReq) :
    (∀ st', addOperation probe mkId urls newId st req = (st', none) →
      selectOptimalServer st req = none ∧
      selectOptimalServer (checkServers probe mkId urls st) req = none ∧
      st' = checkServers probe mkId urls st ∧
      st'.operations.map opShadow = st.operations.map opShadow) ∧
    (∀ st' op, addOperation probe mkId urls newId st req = (st', some op) →
      op.status = .WAITING ∧ op.id = newId ∧
      ∃ server stMid,
        ((selectOptimalServer st req = some server ∧ stMid = st) ∨
          (selectOptimalServer st req = none ∧
            stMid = checkServers probe mkId urls st ∧
            selectOptimalServer stMid req = some server)) ∧
        op = newOperationFor newId req server ∧
        st' = { stMid with operations := stMid.operations ++ [op] }) := by
  constructor
  · intro st' heq
    simp only [addOperation] at heq
    split at heq
    · cases heq
    · rename_i hsel1
      split at heq
      · cases heq
      · rename_i hsel2
        cases heq
        exact ⟨hsel1, hsel2, rfl, checkServers_shadow probe mkId urls st⟩
  · intro st' op heq
    simp only [addOperation] at heq
    split at heq
    · rename_i server hsel1
      cases heq
      exact ⟨rfl, rfl, server, st, Or.inl ⟨hsel1, rfl⟩, rfl, rfl⟩
    · rename_i hsel1
      split at heq
      · rename_i server hsel2
        cases heq
        exact ⟨rfl, rfl, server, checkServers probe mkId urls st,
          Or.inr ⟨hsel1, rfl, hsel2⟩, rfl, rfl⟩
      · cases heq

/-- C8 witness: the error branch of the amended theorem instantiates on
the empty state with an empty configured-url list. -/
theorem addOperation_spec_witness :
    selectOptimalServer initState reqC8 = none ∧
    selectOptimalServer (checkServers probeDownA urlId [] initState) reqC8 = none ∧
    initState = checkServers probeDownA urlId [] initState ∧
    initState.operations.map opShadow = initState.operations.map opShadow :=
  (addOperation_spec probeDownA urlId [] "q" initState reqC8).1 initState (by decide)

/-- A probe outcome under which every url responds with capabilities
for model `"m"`. -/
def probeUp : String → Option IServerReq :=
  fun _ =>
    some { models := some ["m"], loras := some [], controlnets := some [],
           comfyAPI := "c", trainAPI := none }

/-- C1 trace, step 1: a first health-check cycle registers servers
`"a"` and `"b"`. -/
def stT1 : AppState := checkServers probeUp urlId ["a", "b"] initState

/-- C1 trace, step 2: submit operation `"p"` (lands on `"a"`). -/
def stT2 : AppState := (addOperation probeUp urlId ["a", "b"] "p" stT1 reqW).1

/-- C1 trace, step 3: submit operation `"q"` (lands on `"b"`). -/
def stT3 : AppState := (addOperation probeUp urlId ["a", "b"] "q" stT2 reqW).1

/-- C1 trace, step 4: a scheduling tick promotes both operations to
`IN_PROGRESS`, one per server. -/
def stT4 : AppState := operationsLoopTick 0 stT3

/-- C1 trace, step 5: a health-check cycle in which `"a"` fails its
probe; failover moves the running operation `"p"` onto `"b"`. -/
def stT5 : AppState := checkServers probeDownA urlId ["a", "b"] stT4

/-- C1 (counterexample): the state `stT5` is reachable from the empty
startup state by one health-check cycle, two submissions, one scheduling
tick and a second health-check cycle — and in it server `"b"` holds two
`IN_PROGRESS` operations, because failover reassigned the running
operation of the failed server `"a"` to `"b"`, which was already busy. -/
theorem two_in_progress_reachable :
    Reachable stT5 ∧ ¬ atMostOneInProgress stT5 := by
  constructor
  · exact Reachable.step
      (Reachable.step
        (Reachable.step
          (Reachable.step
            (Reachable.step Reachable.init
              (Step.health probeUp urlId ["a", "b"] initState))
            (Step.submit probeUp urlId ["a", "b"] "p" reqW stT1))
          (Step.submit probeUp urlId ["a", "b"] "q" reqW stT2))
        (Step.tick 0 stT3))
      (Step.health probeDownA urlId ["a", "b"] stT4)
  · intro hinv
    exact absurd (hinv "b") (by decide)

/-- The transitions that do not run a health-check cycle: scheduling
ticks, completions, and submissions whose first selection succeeds (a
failed first selection would trigger a synchronous `checkServers` inside
`addOperation`). -/
inductive BenignStep : AppState → AppState → Prop where
  | submit (probe : String → Option IServerReq) (mkId : String → String)
      (urls : List String) (newId : String) (req : IOperationReq) (st : AppState)
      (hsel : selectOptimalServer st req ≠ none) :
      BenignStep st (addOperation probe mkId urls newId st req).1
  | tick (now : Nat) (st : AppState) : BenignStep st (operationsLoopTick now st)
  | complete (id : String) (s : OPERATION_STATUS) (hs : isTerminalStatus s)
      (st : AppState) : BenignStep st (completeOperation st id s)

section InvariantLemmas

lemma inProgCount_cons (op : IOperation) (ops : List IOperation) (sid : String) :
    inProgCount (op :: ops) sid =
      (if op.status == .IN_PROGRESS && op.serverId == sid then 1 else 0) +
        inProgCount ops sid := by
  by_cases hq : (op.status == OPERATION_STATUS.IN_PROGRESS && op.serverId == sid) = true
  · simp [inProgCount, List.filter_cons, hq, Nat.add_comm]
  · simp only [Bool.not_eq_true] at hq
    simp [inProgCount, List.filter_cons, hq]

lemma filter_length_updateFirst_le {α : Type} (p q : α → Bool) (f : α → α)
    (hf : ∀ x, q (f x) = false) :
    ∀ l : List α, ((updateFirst p f l).filter q).length ≤ (l.filter q).length := by
  intro l
  induction l with
  | nil => exact Nat.le_refl 0
  | cons x xs ih =>
    by_cases hp : p x = true
    · rw [updateFirst, if_pos hp, List.filter_cons, List.filter_cons, hf x]
      by_cases hq : q x = true
      · rw [if_neg (by simp), if_pos hq, List.length_cons]
        exact Nat.le_succ_of_le (Nat.le_refl _)
      · simp only [Bool.not_eq_true] at hq
        rw [if_neg (by simp), if_neg (by simp [hq])]
    · rw [updateFirst, if_neg hp, List.filter_cons, List.filter_cons]
      by_cases hq : q x = true
      · rw [if_pos hq, if_pos hq, List.length_cons, List.length_cons]
        exact Nat.succ_le_succ ih
      · simp only [Bool.not_eq_true] at hq
        rw [if_neg (by simp [hq]), if_neg (by simp [hq])]
        exact ih

lemma inProgCount_completeOperation_le (st : AppState) (id : String)
    (s : OPERATION_STATUS) (hs : s ≠ .IN_PROGRESS) (sid : String) :
    inProgCount (completeOperation st id s).operations sid ≤
      inProgCount st.operations sid := by
  refine filter_length_updateFirst_le _ _ _ ?_ st.operations
  intro x
  have : (s == OPERATION_STATUS.IN_PROGRESS) = false := by
    rw [beq_eq_false_iff_ne]
    exact hs
  simp [this]

lemma timeoutPass_atMostOne (now : Nat) (st : AppState)
    (h : atMostOneInProgress st) : atMostOneInProgress (timeoutPass now st) := by
  have hgen : ∀ (L : List IOperation) (acc : AppState), atMostOneInProgress acc →
      atMostOneInProgress (L.foldl
        (fun a op =>
          if isTimedOut now op then completeOperation a op.id .CANCELED_BY_BALANCER
          else a) acc) := by
    intro L
    induction L with
    | nil => intro acc h; exact h
    | cons op L ih =>
      intro acc hacc
      rw [List.foldl_cons]
      by_cases ht : isTimedOut now op = true
      · rw [if_pos ht]
        refine ih _ ?_
        intro sid
        exact Nat.le_trans
          (inProgCount_completeOperation_le acc op.id _ (by decide) sid) (hacc sid)
      · rw [if_neg ht]
        exact ih _ hacc
  exact hgen _ st h

lemma inProgCount_updateFirst_promote (now : Nat) (sid : String) :
    ∀ ops : List IOperation, inProgCount ops sid = 0 →
      inProgCount
        (updateFirst (fun op => op.status == .WAITING && op.serverId == sid)
          (fun op => { op with startTime := some now, status := .IN_PROGRESS }) ops)
        sid ≤ 1 := by
  intro ops
  induction ops with
  | nil => intro _; exact Nat.zero_le 1
  | cons x xs ih =>
    intro h0
    rw [inProgCount_cons] at h0
    have hqx : (x.status == OPERATION_STATUS.IN_PROGRESS && x.serverId == sid) = false := by
      by_cases hq : (x.status == OPERATION_STATUS.IN_PROGRESS && x.serverId == sid) = true
      · rw [hq, if_pos rfl] at h0
        omega
      · simpa using hq
    rw [hqx, if_neg (by simp)] at h0
    by_cases hp : (x.status == OPERATION_STATUS.WAITING && x.serverId == sid) = true
    · rw [updateFirst, if_pos hp, inProgCount_cons]
      have hq' : ((OPERATION_STATUS.IN_PROGRESS == OPERATION_STATUS.IN_PROGRESS) &&
          x.serverId == sid) = true := by
        simp only [Bool.and_eq_true] at hp ⊢
        exact ⟨rfl, hp.2⟩
      rw [show (({ x with startTime := some now, status := OPERATION_STATUS.IN_PROGRESS } : IOperation).status == OPERATION_STATUS.IN_PROGRESS && ({ x with startTime := some now, status := OPERATION_STATUS.IN_PROGRESS } : IOperation).serverId == sid) = true from hq', if_pos rfl]
      omega
    · rw [updateFirst, if_neg hp, inProgCount_cons, hqx, if_neg (by simp)]
      have := ih (by omega)
      omega

lemma inProgCount_updateFirst_promote_other (now : Nat) (sid sid' : String)
    (hne : sid' ≠ sid) :
    ∀ ops : List IOperation,
      inProgCount
        (updateFirst (fun op => op.status == .WAITING && op.serverId == sid)
          (fun op => { op with startTime := some now, status := .IN_PROGRESS }) ops)
        sid' = inProgCount ops sid' := by
  intro ops
  induction ops with
  | nil => rfl
  | cons x xs ih =>
    by_cases hp : (x.status == OPERATION_STATUS.WAITING && x.serverId == sid) = true
    · rw [updateFirst, if_pos hp, inProgCount_cons, inProgCount_cons]
      rw [Bool.and_eq_true] at hp
      have hxsid : (x.serverId == sid') = false := by
        rw [beq_eq_false_iff_ne]
        rw [beq_iff_eq.mp hp.2]
        exact fun he => hne he.symm
      have h1 : ((OPERATION_STATUS.IN_PROGRESS == OPERATION_STATUS.IN_PROGRESS) &&
          x.serverId == sid') = false := by
        rw [hxsid, Bool.and_false]
      have h2 : (x.status == OPERATION_STATUS.IN_PROGRESS && x.serverId == sid') = false := by
        rw [beq_iff_eq.mp hp.1]
        rfl
      rw [show (({ x with startTime := some now, status := OPERATION_STATUS.IN_PROGRESS } : IOperation).status == OPERATION_STATUS.IN_PROGRESS && ({ x with startTime := some now, status := OPERATION_STATUS.IN_PROGRESS } : IOperation).serverId == sid') = false from h1, h2]
    · rw [updateFirst, if_neg hp, inProgCount_cons, inProgCount_cons, ih]

lemma startOnServer_atMostOne (now : Nat) (sid : String) (ops : List IOperation)
    (h : ∀ s' : String, inProgCount ops s' ≤ 1) :
    ∀ s' : String, inProgCount (startOnServer now sid ops) s' ≤ 1 := by
  intro s'
  unfold startOnServer
  split
  · rename_i hguard
    by_cases hs' : s' = sid
    · subst hs'
      exact inProgCount_updateFirst_promote now s' ops (beq_iff_eq.mp hguard)
    · rw [inProgCount_updateFirst_promote_other now sid s' hs' ops]
      exact h s'
  · exact h s'

lemma startFold_atMostOne (now : Nat) (servers : List IServer) :
    ∀ ops : List IOperation, (∀ s' : String, inProgCount ops s' ≤ 1) →
      ∀ s' : String,
        inProgCount
          (servers.foldl (fun ops server => startOnServer now server.id ops) ops) s' ≤ 1 := by
  induction servers with
  | nil => intro ops h; exact h
  | cons s ss ih =>
    intro ops h
    exact ih _ (startOnServer_atMostOne now s.id ops h)

lemma inProgCount_append_waiting (ops : List IOperation) (newOp : IOperation)
    (hw : (newOp.status == OPERATION_STATUS.IN_PROGRESS) = false) (sid : String) :
    inProgCount (ops ++ [newOp]) sid = inProgCount ops sid := by
  unfold inProgCount
  rw [List.filter_append]
  simp [List.filter, hw]

end InvariantLemmas

/-- C1 (amended): the empty startup state satisfies the
one-`IN_PROGRESS`-per-server bound, and every scheduling tick,
completion, and submission whose first selection succeeds preserves it;
the counterexample shows a health-check/failover cycle can break it by
moving a running operation onto an already-busy server. -/
theorem at_most_one_in_progress_preserved :
    atMostOneInProgress initState ∧
    ∀ st st' : AppState, atMostOneInProgress st → BenignStep st st' →
      atMostOneInProgress st' := by
  constructor
  · intro sid
    exact Nat.zero_le 1
  · intro st st' h hstep
    cases hstep with
    | submit probe mkId urls newId req st hsel =>
      cases hsel2 : selectOptimalServer st req with
      | none => exact absurd hsel2 hsel
      | some server =>
        intro sid
        simp only [addOperation, hsel2]
        rw [inProgCount_append_waiting]
        · exact h sid
        · rfl
    | tick now st =>
      have h1 : ∀ s' : String, inProgCount (timeoutPass now st).operations s' ≤ 1 :=
        timeoutPass_atMostOne now st h
      exact fun sid => startFold_atMostOne now _ _ (startFold_atMostOne now _ _ h1) sid
    | complete id s hs st =>
      intro sid
      refine Nat.le_trans (inProgCount_completeOperation_le st id s ?_ sid) (h sid)
      rcases hs with h' | h' | h' | h' <;> (subst h'; decide)

/-- C1 witness: the preservation half of the amended theorem
instantiates on the empty startup state with a scheduling tick. -/
theorem at_most_one_in_progress_preserved_witness :
    atMostOneInProgress (operationsLoopTick 0 initState) :=
  at_most_one_in_progress_preserved.2 initState (operationsLoopTick 0 initState)
    (fun _ => Nat.zero_le 1) (BenignStep.tick 0 initState)

